import Mathlib

/-!
Verification of the job-orchestration core of the rama-judicial-api server.

The embedding translates, from the JavaScript sources:
  * the job store (`jobs : Map`), the FIFO `queue`, the `activeJobs` counter
    and `MAX_CONCURRENT_JOBS` ceiling of `server.js`;
  * `createJob`, `updateJob`, the TTL sweep `setInterval` body, the
    `/buscar` and `/resultado/:jobId` handlers of `server.js`;
  * the asynchronous `processQueue` of `server.js` as a labelled transition
    system whose events are the atomic (synchronous) segments of the event
    loop: admission of the queue head, completion of an in-flight execution,
    a submit, and a sweep;
  * the v4.1 `processQueue` variant (with its `Promise.race` job timeout)
    as a sequential drain function;
  * the `getBrowser` browser-singleton of `server.js` and of the v2.0
    variant (which resets `browserPromise` on launch failure).
-/

namespace RamaJudicial

/-- Job lifecycle states, the four values of the `status` field. -/
inductive JobStatus where
  | queued
  | processing
  | completed
  | failed
deriving DecidableEq, Repr

/-- One record of the `jobs` map, as built by `createJob` in server.js:
`{ status, numero_radicacion, result, error, createdAt }`.  The scrape
result is modelled opaquely as a `String`; `createdAt` is a millisecond
timestamp. -/
structure JobRecord where
  status : JobStatus
  numero_radicacion : String
  result : Option String
  error : Option String
  createdAt : Nat
deriving DecidableEq, Repr

/-- The `jobs` JavaScript `Map`, as an insertion-ordered association list. -/
abbrev JobsMap := List (String × JobRecord)

/-- `Map.prototype.get`: the value bound to the key, if any. -/
def mapGet : JobsMap → String → Option JobRecord
  | [], _ => none
  | (k, v) :: rest, j => if k = j then some v else mapGet rest j

/-- `Map.prototype.set`: replace the binding in place, or append a new one. -/
def mapSet : JobsMap → String → JobRecord → JobsMap
  | [], k, v => [(k, v)]
  | (k', v') :: rest, k, v =>
      if k' = k then (k, v) :: rest else (k', v') :: mapSet rest k v

/-- The key list of the map. -/
def mapKeys (m : JobsMap) : List String := m.map Prod.fst

theorem mapKeys_cons (k : String) (v : JobRecord) (tl : JobsMap) :
    mapKeys ((k, v) :: tl) = k :: mapKeys tl := rfl

theorem mem_mapKeys_of_pair {m : JobsMap} {k : String} {v : JobRecord}
    (h : (k, v) ∈ m) : k ∈ mapKeys m :=
  List.mem_map.mpr ⟨(k, v), h, rfl⟩

theorem mapGet_set_self (m : JobsMap) (k : String) (v : JobRecord) :
    mapGet (mapSet m k v) k = some v := by
  induction m with
  | nil => simp [mapSet, mapGet]
  | cons hd tl ih =>
      obtain ⟨k', v'⟩ := hd
      by_cases h : k' = k
      · simp [mapSet, mapGet, h]
      · simp [mapSet, mapGet, h, ih]

theorem mapGet_set_ne (m : JobsMap) (k : String) (v : JobRecord) (j : String)
    (h : j ≠ k) : mapGet (mapSet m k v) j = mapGet m j := by
  have hk : ¬ (k = j) := fun hh => h hh.symm
  induction m with
  | nil => simp [mapSet, mapGet, hk]
  | cons hd tl ih =>
      obtain ⟨k', v'⟩ := hd
      by_cases h1 : k' = k
      · subst h1
        simp [mapSet, mapGet, hk]
      · simp only [mapSet, if_neg h1, mapGet]
        by_cases h2 : k' = j
        · simp [h2]
        · simp [h2, ih]

theorem mapGet_eq_none_iff (m : JobsMap) (k : String) :
    mapGet m k = none ↔ k ∉ mapKeys m := by
  induction m with
  | nil => simp [mapGet, mapKeys]
  | cons hd tl ih =>
      obtain ⟨k', v'⟩ := hd
      rw [mapKeys_cons]
      by_cases h : k' = k
      · subst h
        simp [mapGet]
      · have hne : ¬ (k = k') := fun hh => h hh.symm
        simp [mapGet, h, List.mem_cons, hne, ih]

theorem mem_mapKeys_of_get {m : JobsMap} {k : String} {v : JobRecord}
    (h : mapGet m k = some v) : k ∈ mapKeys m := by
  by_contra hmem
  rw [← mapGet_eq_none_iff] at hmem
  rw [h] at hmem
  exact Option.noConfusion hmem

theorem mapKeys_set_of_mem {m : JobsMap} {k : String} (v : JobRecord)
    (h : k ∈ mapKeys m) : mapKeys (mapSet m k v) = mapKeys m := by
  induction m with
  | nil => simp [mapKeys] at h
  | cons hd tl ih =>
      obtain ⟨k', v'⟩ := hd
      rw [mapKeys_cons] at h
      by_cases hk : k' = k
      · subst hk
        simp [mapSet, mapKeys_cons]
      · have hmem : k ∈ mapKeys tl := by
          rcases List.mem_cons.mp h with h1 | h1
          · exact absurd h1.symm hk
          · exact h1
        simp only [mapSet, if_neg hk, mapKeys_cons, ih hmem]

theorem mapKeys_set_of_not_mem {m : JobsMap} {k : String} (v : JobRecord)
    (h : k ∉ mapKeys m) : mapKeys (mapSet m k v) = mapKeys m ++ [k] := by
  induction m with
  | nil => simp [mapSet, mapKeys]
  | cons hd tl ih =>
      obtain ⟨k', v'⟩ := hd
      rw [mapKeys_cons] at h
      have hk : k' ≠ k := fun hh => h (hh ▸ List.mem_cons_self k' _)
      have htl : k ∉ mapKeys tl := fun hh => h (List.mem_cons_of_mem _ hh)
      simp only [mapSet, if_neg hk, mapKeys_cons, ih htl, List.cons_append]

theorem nodup_mapKeys_set {m : JobsMap} {k : String} (v : JobRecord)
    (h : (mapKeys m).Nodup) : (mapKeys (mapSet m k v)).Nodup := by
  by_cases hk : k ∈ mapKeys m
  · rw [mapKeys_set_of_mem v hk]; exact h
  · rw [mapKeys_set_of_not_mem v hk]
    simp [List.nodup_append, h, hk]

theorem mapGet_of_mem {m : JobsMap} {k : String} {v : JobRecord}
    (hnd : (mapKeys m).Nodup) (hm : (k, v) ∈ m) : mapGet m k = some v := by
  induction m with
  | nil => simp at hm
  | cons hd tl ih =>
      obtain ⟨k', v'⟩ := hd
      rw [mapKeys_cons, List.nodup_cons] at hnd
      rcases List.mem_cons.mp hm with h | h
      · have h1 : k = k' := congrArg Prod.fst h
        have h2 : v = v' := congrArg Prod.snd h
        simp [mapGet, h1.symm, h2]
      · have hk : k' ≠ k := by
          intro hh
          subst hh
          exact hnd.1 (mem_mapKeys_of_pair h)
        simp only [mapGet, if_neg hk]
        exact ih hnd.2 h

theorem mapGet_filter_of_none (p : String × JobRecord → Bool) {m : JobsMap}
    {j : String} (hget : mapGet m j = none) :
    mapGet (m.filter p) j = none := by
  induction m with
  | nil => simp [mapGet]
  | cons hd tl ih =>
      obtain ⟨k', v'⟩ := hd
      by_cases hk : k' = j
      · subst hk
        simp [mapGet] at hget
      · simp only [mapGet, if_neg hk] at hget
        by_cases hp : p (k', v')
        · simp only [List.filter_cons, hp, if_true, mapGet, if_neg hk]
          exact ih hget
        · simp only [List.filter_cons, hp]
          simp only [Bool.false_eq_true, if_false]
          exact ih hget

theorem mapGet_filter_of_get (p : String × JobRecord → Bool) {m : JobsMap}
    {j : String} {v : JobRecord} (hnd : (mapKeys m).Nodup)
    (hget : mapGet m j = some v) :
    mapGet (m.filter p) j = if p (j, v) then some v else none := by
  induction m with
  | nil => simp [mapGet] at hget
  | cons hd tl ih =>
      obtain ⟨k', v'⟩ := hd
      rw [mapKeys_cons, List.nodup_cons] at hnd
      by_cases hk : k' = j
      · subst hk
        have hv : v' = v := by simpa [mapGet] using hget
        subst hv
        have hnone : mapGet tl k' = none :=
          (mapGet_eq_none_iff tl k').mpr hnd.1
        by_cases hp : p (k', v')
        · simp only [List.filter_cons, hp, if_true, mapGet, if_pos rfl]
        · simp only [List.filter_cons, hp, Bool.false_eq_true, if_false]
          rw [mapGet_filter_of_none p hnone]
      · simp only [mapGet, if_neg hk] at hget
        by_cases hp : p (k', v')
        · simp only [List.filter_cons, hp, if_true, mapGet, if_neg hk]
          exact ih hnd.2 hget
        · simp only [List.filter_cons, hp, Bool.false_eq_true, if_false]
          exact ih hnd.2 hget

theorem mapKeys_filter_sublist (p : String × JobRecord → Bool) (m : JobsMap) :
    (mapKeys (m.filter p)).Sublist (mapKeys m) :=
  (List.filter_sublist m).map Prod.fst

/-- A partial update object, the `updates` argument of `updateJob`.  A field
holding `none` is absent from the JavaScript object literal; a field holding
`some x` is present and overrides the record's field, the spread-merge
semantics of `{ ...job, ...updates }`. -/
structure JobUpdate where
  status : Option JobStatus := none
  numero_radicacion : Option String := none
  result : Option (Option String) := none
  error : Option (Option String) := none
  createdAt : Option Nat := none

/-- The spread merge `{ ...job, ...updates }`. -/
def applyUpdate (job : JobRecord) (u : JobUpdate) : JobRecord :=
  { status := u.status.getD job.status
    numero_radicacion := u.numero_radicacion.getD job.numero_radicacion
    result := u.result.getD job.result
    error := u.error.getD job.error
    createdAt := u.createdAt.getD job.createdAt }

/-- server.js lines 36-41:
`function updateJob(jobId, updates) { const job = jobs.get(jobId);
 if (job) { jobs.set(jobId, { ...job, ...updates }); } }` -/
def updateJob (jobId : String) (updates : JobUpdate) (jobs : JobsMap) : JobsMap :=
  match mapGet jobs jobId with
  | none => jobs
  | some job => mapSet jobs jobId (applyUpdate job updates)

theorem updateJob_absent {jobs : JobsMap} {jobId : String} (updates : JobUpdate)
    (h : mapGet jobs jobId = none) : updateJob jobId updates jobs = jobs := by
  unfold updateJob
  rw [h]

theorem mapGet_updateJob_self (jobId : String) (updates : JobUpdate) (jobs : JobsMap) :
    mapGet (updateJob jobId updates jobs) jobId =
      (mapGet jobs jobId).map (fun job => applyUpdate job updates) := by
  unfold updateJob
  cases h : mapGet jobs jobId with
  | none => simp [h]
  | some job => simp [mapGet_set_self]

theorem mapGet_updateJob_ne (jobId : String) (updates : JobUpdate) (jobs : JobsMap)
    (j : String) (h : j ≠ jobId) :
    mapGet (updateJob jobId updates jobs) j = mapGet jobs j := by
  unfold updateJob
  cases hg : mapGet jobs jobId with
  | none => rfl
  | some job => exact mapGet_set_ne jobs jobId _ j h

theorem mapKeys_updateJob (jobId : String) (updates : JobUpdate) (jobs : JobsMap) :
    mapKeys (updateJob jobId updates jobs) = mapKeys jobs := by
  unfold updateJob
  cases hg : mapGet jobs jobId with
  | none => rfl
  | some job => exact mapKeys_set_of_mem _ (mem_mapKeys_of_get hg)

/-- The normalization `radicado.replace(/\D/g, "")`: strip every non-digit. -/
def stripNonDigits (s : String) : String := String.mk (s.data.filter Char.isDigit)

/-- server.js: concurrency ceiling `const MAX_CONCURRENT_JOBS = 2`. -/
def MAX_CONCURRENT_JOBS : Nat := 2

/-- server.js lines 24-34: `createJob` inserts a fresh record
`{ status: "queued", numero_radicacion, result: null, error: null,
createdAt: new Date() }` into the `jobs` map.  The generated identifier and
the current time are passed explicitly. -/
def createJob (jobId : String) (numeroRadicacion : String) (now : Nat)
    (jobs : JobsMap) : JobsMap :=
  mapSet jobs jobId
    { status := JobStatus.queued
      numero_radicacion := numeroRadicacion
      result := none
      error := none
      createdAt := now }

/-- server.js lines 73-80, the body of the cleanup `setInterval`: delete every
job with `now - job.createdAt.getTime() > 600000`; i.e. keep exactly the
bindings with `now - createdAt ≤ 600000`. -/
def sweepMap (now : Nat) (jobs : JobsMap) : JobsMap :=
  jobs.filter (fun p => decide (now - p.2.createdAt ≤ 600000))

/-- The run-time configuration of the server.js job system: the `jobs` map,
the FIFO `queue` of `(jobId, numeroRadicacion)` pairs (the raw query value,
as pushed by `/buscar`), and the `activeJobs` counter — plus the in-flight
executions (`running`: the pending `consultaRama` calls awaited inside
`processQueue`) and two history variables used to state ordering properties:
`submitted` (ids in `createJob` order) and `started` (ids in admission
order). -/
structure SrvState where
  jobs : JobsMap
  queue : List (String × String)
  activeJobs : Nat
  running : List (String × String)
  submitted : List String
  started : List String
deriving Repr

/-- The state at server start: all empty, `activeJobs = 0`. -/
def initState : SrvState :=
  { jobs := [], queue := [], activeJobs := 0, running := [], submitted := [], started := [] }

def queueIds (s : SrvState) : List String := s.queue.map Prod.fst

def runningIds (s : SrvState) : List String := s.running.map Prod.fst

/-- Effect of the `/buscar` handler once validation passed (server.js lines
361-362): `const jobId = createJob(soloDigitos); queue.push({ jobId,
numeroRadicacion: radicado })`.  The job record stores the stripped digits,
the queue entry the raw parameter. -/
def submitEffect (s : SrvState) (jobId radicado : String) (now : Nat) : SrvState :=
  { s with
      jobs := createJob jobId (stripNonDigits radicado) now s.jobs
      queue := s.queue ++ [(jobId, radicado)]
      submitted := s.submitted ++ [jobId] }

/-- Effect of the synchronous prefix of `processQueue` (server.js lines
43-52): under the ceiling and with a non-empty queue, shift the head entry,
increment `activeJobs`, mark the job `"processing"` and launch its
execution. -/
def startEffect (s : SrvState) (jobId radicado : String)
    (rest : List (String × String)) : SrvState :=
  { jobs := updateJob jobId { status := some JobStatus.processing } s.jobs
    queue := rest
    activeJobs := s.activeJobs + 1
    running := s.running ++ [(jobId, radicado)]
    submitted := s.submitted
    started := s.started ++ [jobId] }

/-- Effect of the resumption of `processQueue` after `consultaRama`
resolves (server.js lines 55-60 and 67-69): mark the job `"completed"` with
its result and decrement `activeJobs`. -/
def completeOkEffect (s : SrvState) (jobId resultado : String)
    (l1 l2 : List (String × String)) : SrvState :=
  { s with
      jobs := updateJob jobId
        { status := some JobStatus.completed, result := some (some resultado) } s.jobs
      running := l1 ++ l2
      activeJobs := s.activeJobs - 1 }

/-- Effect of the resumption of `processQueue` after `consultaRama`
rejects (server.js lines 61-69): mark the job `"failed"` with the error
message and decrement `activeJobs`. -/
def completeErrEffect (s : SrvState) (jobId message : String)
    (l1 l2 : List (String × String)) : SrvState :=
  { s with
      jobs := updateJob jobId
        { status := some JobStatus.failed, error := some (some message) } s.jobs
      running := l1 ++ l2
      activeJobs := s.activeJobs - 1 }

/-- Effect of one run of the cleanup interval. -/
def sweepEffect (s : SrvState) (now : Nat) : SrvState :=
  { s with jobs := sweepMap now s.jobs }

/-- The event-loop transition relation of server.js, parameterized by the
concurrency ceiling `C` (`MAX_CONCURRENT_JOBS` in the code).  Each event is
one atomic synchronous segment of the single-threaded event loop:

* `submit`: a `/buscar` request that passed validation (the generated id is
  fresh, the stripped parameter has exactly 23 digits);
* `start`: the synchronous prefix of `processQueue`, enabled only when
  `activeJobs < C` and the queue is non-empty, always taking the queue head
  (`queue.shift()`);
* `completeOk` / `completeErr`: resolution or rejection of one in-flight
  `consultaRama` execution;
* `sweep`: one run of the TTL cleanup interval. -/
inductive Step (C : Nat) : SrvState → SrvState → Prop where
  | submit (s : SrvState) (jobId radicado : String) (now : Nat)
      (hfresh : jobId ∉ s.submitted)
      (hvalid : (stripNonDigits radicado).length = 23) :
      Step C s (submitEffect s jobId radicado now)
  | start (s : SrvState) (jobId radicado : String) (rest : List (String × String))
      (hcap : s.activeJobs < C)
      (hq : s.queue = (jobId, radicado) :: rest) :
      Step C s (startEffect s jobId radicado rest)
  | completeOk (s : SrvState) (jobId radicado resultado : String)
      (l1 l2 : List (String × String))
      (hrun : s.running = l1 ++ (jobId, radicado) :: l2) :
      Step C s (completeOkEffect s jobId resultado l1 l2)
  | completeErr (s : SrvState) (jobId radicado message : String)
      (l1 l2 : List (String × String))
      (hrun : s.running = l1 ++ (jobId, radicado) :: l2) :
      Step C s (completeErrEffect s jobId message l1 l2)
  | sweep (s : SrvState) (now : Nat) :
      Step C s (sweepEffect s now)

/-- Zero or more event-loop steps. -/
inductive StepStar (C : Nat) : SrvState → SrvState → Prop where
  | refl (s : SrvState) : StepStar C s s
  | tail {s s' s'' : SrvState} : StepStar C s s' → Step C s' s'' → StepStar C s s''

/-- States the server can be in after any sequence of requests,
completions and sweeps. -/
def Reachable (C : Nat) (s : SrvState) : Prop := StepStar C initState s

/-- The result/error discipline of a single job record: both fields are
`null` before a terminal state; `result` is set exactly in `"completed"`,
`error` exactly in `"failed"`. -/
def FieldInv (r : JobRecord) : Prop :=
  match r.status with
  | JobStatus.queued => r.result = none ∧ r.error = none
  | JobStatus.processing => r.result = none ∧ r.error = none
  | JobStatus.completed => r.result.isSome ∧ r.error = none
  | JobStatus.failed => r.error.isSome ∧ r.result = none

/-- The inductive invariant of the server.js event loop. -/
structure Inv (C : Nat) (s : SrvState) : Prop where
  keysNodup : (mapKeys s.jobs).Nodup
  activeEq : s.activeJobs = s.running.length
  activeLe : s.activeJobs ≤ C
  fifo : s.started ++ queueIds s = s.submitted
  subNodup : s.submitted.Nodup
  runStarted : ∀ x ∈ runningIds s, x ∈ s.started
  runNodup : (runningIds s).Nodup
  keysSub : ∀ x ∈ mapKeys s.jobs, x ∈ s.submitted
  procRun : ∀ jid r, mapGet s.jobs jid = some r →
    r.status = JobStatus.processing → jid ∈ runningIds s
  runProc : ∀ jid, jid ∈ runningIds s → ∀ r, mapGet s.jobs jid = some r →
    r.status = JobStatus.processing
  queueQueued : ∀ jid, jid ∈ queueIds s → ∀ r, mapGet s.jobs jid = some r →
    r.status = JobStatus.queued
  fields : ∀ jid r, mapGet s.jobs jid = some r → FieldInv r

theorem Inv.splitNodup {C : Nat} {s : SrvState} (h : Inv C s) :
    s.started.Nodup ∧ (queueIds s).Nodup ∧ s.started.Disjoint (queueIds s) := by
  have := h.subNodup
  rw [← h.fifo] at this
  exact List.nodup_append.mp this

theorem Inv.started_sub {C : Nat} {s : SrvState} (h : Inv C s) :
    ∀ x ∈ s.started, x ∈ s.submitted := by
  intro x hx
  rw [← h.fifo]
  exact List.mem_append_left _ hx

theorem Inv.queue_sub {C : Nat} {s : SrvState} (h : Inv C s) :
    ∀ x ∈ queueIds s, x ∈ s.submitted := by
  intro x hx
  rw [← h.fifo]
  exact List.mem_append_right _ hx

theorem Inv.run_queue_disjoint {C : Nat} {s : SrvState} (h : Inv C s) :
    ∀ x ∈ runningIds s, x ∉ queueIds s := by
  intro x hx
  exact h.splitNodup.2.2 (h.runStarted x hx)

theorem inv_init (C : Nat) : Inv C initState := by
  refine ⟨?_, ?_, ?_, ?_, ?_, ?_, ?_, ?_, ?_, ?_, ?_, ?_⟩ <;>
    simp [initState, mapKeys, queueIds, runningIds, mapGet]

theorem mapGet_filter_some {p : String × JobRecord → Bool} {m : JobsMap}
    {j : String} {r : JobRecord} (hnd : (mapKeys m).Nodup)
    (h : mapGet (m.filter p) j = some r) : mapGet m j = some r := by
  cases hget : mapGet m j with
  | none => rw [mapGet_filter_of_none p hget] at h; exact Option.noConfusion h
  | some v =>
      rw [mapGet_filter_of_get p hnd hget] at h
      by_cases hp : p (j, v)
      · rw [if_pos hp] at h
        exact h
      · rw [if_neg hp] at h
        exact Option.noConfusion h

theorem submitEffect_jobs (s : SrvState) (jobId radicado : String) (now : Nat) :
    (submitEffect s jobId radicado now).jobs =
      mapSet s.jobs jobId
        { status := JobStatus.queued, numero_radicacion := stripNonDigits radicado,
          result := none, error := none, createdAt := now } := rfl

theorem inv_submit {C : Nat} {s : SrvState} (h : Inv C s)
    {jobId radicado : String} {now : Nat} (hfresh : jobId ∉ s.submitted) :
    Inv C (submitEffect s jobId radicado now) := by
  have hknotmem : jobId ∉ mapKeys s.jobs := fun hmem => hfresh (h.keysSub _ hmem)
  have hqueue' : queueIds (submitEffect s jobId radicado now) = queueIds s ++ [jobId] := by
    simp [submitEffect, queueIds]
  have hrun' : runningIds (submitEffect s jobId radicado now) = runningIds s := rfl
  have hget_self : mapGet (submitEffect s jobId radicado now).jobs jobId =
      some { status := JobStatus.queued, numero_radicacion := stripNonDigits radicado,
             result := none, error := none, createdAt := now } := by
    rw [submitEffect_jobs, mapGet_set_self]
  have hget_ne : ∀ jid, jid ≠ jobId →
      mapGet (submitEffect s jobId radicado now).jobs jid = mapGet s.jobs jid := by
    intro jid hj
    rw [submitEffect_jobs, mapGet_set_ne _ _ _ _ hj]
  refine ⟨?_, h.activeEq, h.activeLe, ?_, ?_, ?_, ?_, ?_, ?_, ?_, ?_, ?_⟩
  · rw [submitEffect_jobs]
    exact nodup_mapKeys_set _ h.keysNodup
  · rw [hqueue']
    show s.started ++ (queueIds s ++ [jobId]) = s.submitted ++ [jobId]
    rw [← List.append_assoc, h.fifo]
  · show (s.submitted ++ [jobId]).Nodup
    simp [List.nodup_append, h.subNodup, hfresh]
  · rw [hrun']
    intro x hx
    exact h.runStarted x hx
  · exact h.runNodup
  · intro x hx
    show x ∈ s.submitted ++ [jobId]
    rw [submitEffect_jobs, mapKeys_set_of_not_mem _ hknotmem] at hx
    rcases List.mem_append.mp hx with hx | hx
    · exact List.mem_append_left _ (h.keysSub x hx)
    · exact List.mem_append_right _ hx
  · intro jid r hget hst
    rw [hrun']
    by_cases hj : jid = jobId
    · subst hj
      rw [hget_self] at hget
      cases hget
      exact absurd hst (by simp)
    · rw [hget_ne jid hj] at hget
      exact h.procRun jid r hget hst
  · intro jid hjid r hget
    rw [hrun'] at hjid
    have hsub : jid ∈ s.submitted := h.started_sub _ (h.runStarted _ hjid)
    have hj : jid ≠ jobId := fun hh => hfresh (hh ▸ hsub)
    rw [hget_ne jid hj] at hget
    exact h.runProc jid hjid r hget
  · intro jid hjid r hget
    by_cases hj : jid = jobId
    · subst hj
      rw [hget_self] at hget
      cases hget
      rfl
    · rw [hqueue'] at hjid
      have hq : jid ∈ queueIds s := by
        rcases List.mem_append.mp hjid with hx | hx
        · exact hx
        · exact absurd (List.mem_singleton.mp hx) hj
      rw [hget_ne jid hj] at hget
      exact h.queueQueued jid hq r hget
  · intro jid r hget
    by_cases hj : jid = jobId
    · subst hj
      rw [hget_self] at hget
      cases hget
      exact ⟨rfl, rfl⟩
    · rw [hget_ne jid hj] at hget
      exact h.fields jid r hget

theorem inv_start {C : Nat} {s : SrvState} (h : Inv C s)
    {jobId radicado : String} {rest : List (String × String)}
    (hcap : s.activeJobs < C) (hq : s.queue = (jobId, radicado) :: rest) :
    Inv C (startEffect s jobId radicado rest) := by
  have hqids : queueIds s = jobId :: rest.map Prod.fst := by
    simp [queueIds, hq]
  have hheadq : jobId ∈ queueIds s := by rw [hqids]; exact List.mem_cons_self _ _
  have hnotstarted : jobId ∉ s.started := fun hh => h.splitNodup.2.2 hh hheadq
  have hnotrun : jobId ∉ runningIds s := fun hh => hnotstarted (h.runStarted _ hh)
  have hnotrest : jobId ∉ rest.map Prod.fst := by
    have := h.splitNodup.2.1
    rw [hqids] at this
    exact (List.nodup_cons.mp this).1
  have hrunIds : runningIds (startEffect s jobId radicado rest) =
      runningIds s ++ [jobId] := by
    simp [startEffect, runningIds]
  have hget_self : mapGet (startEffect s jobId radicado rest).jobs jobId =
      (mapGet s.jobs jobId).map
        (fun job => applyUpdate job { status := some JobStatus.processing }) :=
    mapGet_updateJob_self _ _ _
  have hget_ne : ∀ jid, jid ≠ jobId →
      mapGet (startEffect s jobId radicado rest).jobs jid = mapGet s.jobs jid :=
    fun jid hj => mapGet_updateJob_ne _ _ _ _ hj
  refine ⟨?_, ?_, ?_, ?_, h.subNodup, ?_, ?_, ?_, ?_, ?_, ?_, ?_⟩
  · show (mapKeys (updateJob _ _ s.jobs)).Nodup
    rw [mapKeys_updateJob]
    exact h.keysNodup
  · show s.activeJobs + 1 = (s.running ++ [(jobId, radicado)]).length
    simp [h.activeEq]
  · exact hcap
  · show (s.started ++ [jobId]) ++ rest.map Prod.fst = s.submitted
    rw [List.append_assoc]
    have : [jobId] ++ rest.map Prod.fst = queueIds s := by rw [hqids]; rfl
    rw [this, h.fifo]
  · intro x hx
    rw [hrunIds] at hx
    show x ∈ s.started ++ [jobId]
    rcases List.mem_append.mp hx with hx | hx
    · exact List.mem_append_left _ (h.runStarted x hx)
    · exact List.mem_append_right _ hx
  · rw [hrunIds]
    rw [List.nodup_append]
    refine ⟨h.runNodup, List.nodup_singleton _, ?_⟩
    intro a ha hb
    rw [List.mem_singleton] at hb
    exact hnotrun (hb ▸ ha)
  · intro x hx
    show x ∈ s.submitted
    rw [show (startEffect s jobId radicado rest).jobs =
          updateJob jobId { status := some JobStatus.processing } s.jobs from rfl,
        mapKeys_updateJob] at hx
    exact h.keysSub x hx
  · intro jid r hget hst
    rw [hrunIds]
    by_cases hj : jid = jobId
    · subst hj
      exact List.mem_append_right _ (List.mem_singleton.mpr rfl)
    · rw [hget_ne jid hj] at hget
      exact List.mem_append_left _ (h.procRun jid r hget hst)
  · intro jid hjid r hget
    by_cases hj : jid = jobId
    · subst hj
      rw [hget_self] at hget
      cases h0 : mapGet s.jobs jid with
      | none => rw [h0] at hget; exact Option.noConfusion hget
      | some r0 =>
          rw [h0] at hget
          simp only [Option.map_some'] at hget
          cases hget
          rfl
    · rw [hrunIds] at hjid
      have hmem : jid ∈ runningIds s := by
        rcases List.mem_append.mp hjid with hx | hx
        · exact hx
        · exact absurd (List.mem_singleton.mp hx) hj
      rw [hget_ne jid hj] at hget
      exact h.runProc jid hmem r hget
  · intro jid hjid r hget
    have hj : jid ≠ jobId := fun hh => hnotrest (hh ▸ hjid)
    rw [hget_ne jid hj] at hget
    have hmem : jid ∈ queueIds s := by
      rw [hqids]
      exact List.mem_cons_of_mem _ hjid
    exact h.queueQueued jid hmem r hget
  · intro jid r hget
    by_cases hj : jid = jobId
    · subst hj
      rw [hget_self] at hget
      cases h0 : mapGet s.jobs jid with
      | none => rw [h0] at hget; exact Option.noConfusion hget
      | some r0 =>
          rw [h0] at hget
          simp only [Option.map_some'] at hget
          cases hget
          have hst : r0.status = JobStatus.queued := h.queueQueued jid hheadq r0 h0
          have hfi := h.fields jid r0 h0
          simp only [FieldInv, hst] at hfi
          simp [FieldInv, applyUpdate, hfi.1, hfi.2]
    · rw [hget_ne jid hj] at hget
      exact h.fields jid r hget

theorem inv_completeOk {C : Nat} {s : SrvState}
    (h : Inv C s) {jobId radicado resultado : String}
    {l1 l2 : List (String × String)}
    (hrun : s.running = l1 ++ (jobId, radicado) :: l2) :
    Inv C (completeOkEffect s jobId resultado l1 l2) := by
  have hrids : runningIds s = l1.map Prod.fst ++ jobId :: l2.map Prod.fst := by
    simp [runningIds, hrun]
  have hjmem : jobId ∈ runningIds s := by
    rw [hrids]
    exact List.mem_append_right _ (List.mem_cons_self _ _)
  have hmid := h.runNodup
  rw [hrids, List.nodup_middle, List.nodup_cons, ← List.map_append] at hmid
  have hrids' : runningIds (completeOkEffect s jobId resultado l1 l2) =
      (l1 ++ l2).map Prod.fst := by
    simp [completeOkEffect, runningIds]
  have hnotq : jobId ∉ queueIds s := h.run_queue_disjoint _ hjmem
  have hget_ne : ∀ jid, jid ≠ jobId →
      mapGet (completeOkEffect s jobId resultado l1 l2).jobs jid = mapGet s.jobs jid :=
    fun jid hj => mapGet_updateJob_ne _ _ _ _ hj
  have hget_self : mapGet (completeOkEffect s jobId resultado l1 l2).jobs jobId =
      (mapGet s.jobs jobId).map (fun job => applyUpdate job
        { status := some JobStatus.completed, result := some (some resultado) }) :=
    mapGet_updateJob_self _ _ _
  have hmemMiddle : ∀ x ∈ (l1 ++ l2).map Prod.fst, x ∈ runningIds s := by
    intro x hx
    rw [hrids]
    rw [List.map_append] at hx
    rcases List.mem_append.mp hx with hx | hx
    · exact List.mem_append_left _ hx
    · exact List.mem_append_right _ (List.mem_cons_of_mem _ hx)
  refine ⟨?_, ?_, ?_, h.fifo, h.subNodup, ?_, ?_, ?_, ?_, ?_, ?_, ?_⟩
  · show (mapKeys (updateJob _ _ s.jobs)).Nodup
    rw [mapKeys_updateJob]
    exact h.keysNodup
  · show s.activeJobs - 1 = (l1 ++ l2).length
    have := h.activeEq
    rw [hrun] at this
    simp only [List.length_append, List.length_cons] at this ⊢
    omega
  · exact Nat.le_trans (Nat.sub_le _ _) h.activeLe
  · intro x hx
    rw [hrids'] at hx
    exact h.runStarted x (hmemMiddle x hx)
  · rw [hrids']
    exact hmid.2
  · intro x hx
    rw [show (completeOkEffect s jobId resultado l1 l2).jobs =
          updateJob jobId _ s.jobs from rfl, mapKeys_updateJob] at hx
    exact h.keysSub x hx
  · intro jid r hget hst
    rw [hrids']
    by_cases hj : jid = jobId
    · subst hj
      rw [hget_self] at hget
      cases h0 : mapGet s.jobs jid with
      | none => rw [h0] at hget; exact Option.noConfusion hget
      | some r0 =>
          rw [h0] at hget
          simp only [Option.map_some'] at hget
          cases hget
          simp [applyUpdate] at hst
    · rw [hget_ne jid hj] at hget
      have hmem := h.procRun jid r hget hst
      rw [hrids] at hmem
      rw [List.map_append]
      rcases List.mem_append.mp hmem with hx | hx
      · exact List.mem_append_left _ hx
      · rcases List.mem_cons.mp hx with hx | hx
        · exact absurd hx hj
        · exact List.mem_append_right _ hx
  · intro jid hjid r hget
    rw [hrids'] at hjid
    have hj : jid ≠ jobId := fun hh => hmid.1 (hh ▸ hjid)
    rw [hget_ne jid hj] at hget
    exact h.runProc jid (hmemMiddle jid hjid) r hget
  · intro jid hjid r hget
    have hj : jid ≠ jobId := fun hh => hnotq (hh ▸ hjid)
    rw [hget_ne jid hj] at hget
    exact h.queueQueued jid hjid r hget
  · intro jid r hget
    by_cases hj : jid = jobId
    · subst hj
      rw [hget_self] at hget
      cases h0 : mapGet s.jobs jid with
      | none => rw [h0] at hget; exact Option.noConfusion hget
      | some r0 =>
          rw [h0] at hget
          simp only [Option.map_some'] at hget
          cases hget
          have hst0 : r0.status = JobStatus.processing := h.runProc jid hjmem r0 h0
          have hfi := h.fields jid r0 h0
          simp only [FieldInv, hst0] at hfi
          simp [FieldInv, applyUpdate, hfi.2]
    · rw [hget_ne jid hj] at hget
      exact h.fields jid r hget

theorem inv_completeErr {C : Nat} {s : SrvState}
    (h : Inv C s) {jobId radicado message : String}
    {l1 l2 : List (String × String)}
    (hrun : s.running = l1 ++ (jobId, radicado) :: l2) :
    Inv C (completeErrEffect s jobId message l1 l2) := by
  have hrids : runningIds s = l1.map Prod.fst ++ jobId :: l2.map Prod.fst := by
    simp [runningIds, hrun]
  have hjmem : jobId ∈ runningIds s := by
    rw [hrids]
    exact List.mem_append_right _ (List.mem_cons_self _ _)
  have hmid := h.runNodup
  rw [hrids, List.nodup_middle, List.nodup_cons, ← List.map_append] at hmid
  have hrids' : runningIds (completeErrEffect s jobId message l1 l2) =
      (l1 ++ l2).map Prod.fst := by
    simp [completeErrEffect, runningIds]
  have hnotq : jobId ∉ queueIds s := h.run_queue_disjoint _ hjmem
  have hget_ne : ∀ jid, jid ≠ jobId →
      mapGet (completeErrEffect s jobId message l1 l2).jobs jid = mapGet s.jobs jid :=
    fun jid hj => mapGet_updateJob_ne _ _ _ _ hj
  have hget_self : mapGet (completeErrEffect s jobId message l1 l2).jobs jobId =
      (mapGet s.jobs jobId).map (fun job => applyUpdate job
        { status := some JobStatus.failed, error := some (some message) }) :=
    mapGet_updateJob_self _ _ _
  have hmemMiddle : ∀ x ∈ (l1 ++ l2).map Prod.fst, x ∈ runningIds s := by
    intro x hx
    rw [hrids]
    rw [List.map_append] at hx
    rcases List.mem_append.mp hx with hx | hx
    · exact List.mem_append_left _ hx
    · exact List.mem_append_right _ (List.mem_cons_of_mem _ hx)
  refine ⟨?_, ?_, ?_, h.fifo, h.subNodup, ?_, ?_, ?_, ?_, ?_, ?_, ?_⟩
  · show (mapKeys (updateJob _ _ s.jobs)).Nodup
    rw [mapKeys_updateJob]
    exact h.keysNodup
  · show s.activeJobs - 1 = (l1 ++ l2).length
    have := h.activeEq
    rw [hrun] at this
    simp only [List.length_append, List.length_cons] at this ⊢
    omega
  · exact Nat.le_trans (Nat.sub_le _ _) h.activeLe
  · intro x hx
    rw [hrids'] at hx
    exact h.runStarted x (hmemMiddle x hx)
  · rw [hrids']
    exact hmid.2
  · intro x hx
    rw [show (completeErrEffect s jobId message l1 l2).jobs =
          updateJob jobId _ s.jobs from rfl, mapKeys_updateJob] at hx
    exact h.keysSub x hx
  · intro jid r hget hst
    rw [hrids']
    by_cases hj : jid = jobId
    · subst hj
      rw [hget_self] at hget
      cases h0 : mapGet s.jobs jid with
      | none => rw [h0] at hget; exact Option.noConfusion hget
      | some r0 =>
          rw [h0] at hget
          simp only [Option.map_some'] at hget
          cases hget
          simp [applyUpdate] at hst
    · rw [hget_ne jid hj] at hget
      have hmem := h.procRun jid r hget hst
      rw [hrids] at hmem
      rw [List.map_append]
      rcases List.mem_append.mp hmem with hx | hx
      · exact List.mem_append_left _ hx
      · rcases List.mem_cons.mp hx with hx | hx
        · exact absurd hx hj
        · exact List.mem_append_right _ hx
  · intro jid hjid r hget
    rw [hrids'] at hjid
    have hj : jid ≠ jobId := fun hh => hmid.1 (hh ▸ hjid)
    rw [hget_ne jid hj] at hget
    exact h.runProc jid (hmemMiddle jid hjid) r hget
  · intro jid hjid r hget
    have hj : jid ≠ jobId := fun hh => hnotq (hh ▸ hjid)
    rw [hget_ne jid hj] at hget
    exact h.queueQueued jid hjid r hget
  · intro jid r hget
    by_cases hj : jid = jobId
    · subst hj
      rw [hget_self] at hget
      cases h0 : mapGet s.jobs jid with
      | none => rw [h0] at hget; exact Option.noConfusion hget
      | some r0 =>
          rw [h0] at hget
          simp only [Option.map_some'] at hget
          cases hget
          have hst0 : r0.status = JobStatus.processing := h.runProc jid hjmem r0 h0
          have hfi := h.fields jid r0 h0
          simp only [FieldInv, hst0] at hfi
          simp [FieldInv, applyUpdate, hfi.1]
    · rw [hget_ne jid hj] at hget
      exact h.fields jid r hget

theorem inv_sweep {C : Nat} {s : SrvState} (h : Inv C s) (now : Nat) :
    Inv C (sweepEffect s now) := by
  have hget : ∀ jid r, mapGet (sweepEffect s now).jobs jid = some r →
      mapGet s.jobs jid = some r := by
    intro jid r hr
    exact mapGet_filter_some h.keysNodup hr
  have hsub : (mapKeys (sweepEffect s now).jobs).Sublist (mapKeys s.jobs) :=
    mapKeys_filter_sublist _ _
  refine ⟨?_, h.activeEq, h.activeLe, h.fifo, h.subNodup, h.runStarted, h.runNodup,
    ?_, ?_, ?_, ?_, ?_⟩
  · exact List.Nodup.sublist hsub h.keysNodup
  · intro x hx
    exact h.keysSub x (hsub.subset hx)
  · intro jid r hr hst
    exact h.procRun jid r (hget jid r hr) hst
  · intro jid hjid r hr
    exact h.runProc jid hjid r (hget jid r hr)
  · intro jid hjid r hr
    exact h.queueQueued jid hjid r (hget jid r hr)
  · intro jid r hr
    exact h.fields jid r (hget jid r hr)

theorem inv_step {C : Nat} {s s' : SrvState} (h : Inv C s) (hs : Step C s s') :
    Inv C s' := by
  cases hs with
  | submit jobId radicado now hfresh hvalid => exact inv_submit h hfresh
  | start jobId radicado rest hcap hq => exact inv_start h hcap hq
  | completeOk jobId radicado resultado l1 l2 hrun => exact inv_completeOk h hrun
  | completeErr jobId radicado message l1 l2 hrun => exact inv_completeErr h hrun
  | sweep now => exact inv_sweep h now

theorem inv_star {C : Nat} {s s' : SrvState} (h : Inv C s) (hs : StepStar C s s') :
    Inv C s' := by
  induction hs with
  | refl => exact h
  | tail hstar hstep ih => exact inv_step ih hstep

theorem inv_reachable {C : Nat} {s : SrvState} (h : Reachable C s) : Inv C s :=
  inv_star (inv_init C) h

/-- The number of jobs whose `status` field is `"processing"`. -/
def countProcessing (s : SrvState) : Nat :=
  (s.jobs.filter (fun p => decide (p.2.status = JobStatus.processing))).length

/-- The responses of the `/resultado/:jobId` handler (server.js lines
379-429), one constructor per branch; only the payload fields that depend
on the job record or the queue are kept. -/
inductive PollResponse where
  | notFound
  | queuedResp (jobId : String) (queuePosition : Nat) (numeroRadicacion : String)
  | processingResp (jobId : String) (numeroRadicacion : String)
  | completedResp (jobId : String) (result : Option String)
  | failedResp (jobId : String) (error : Option String)
deriving DecidableEq, Repr

/-- server.js lines 379-429: look the job up; 404 when absent; otherwise
answer by status.  For a queued job the position is
`queue.findIndex(q => q.jobId === jobId) + 1` (zero when the entry is
gone, since `findIndex` yields `-1`). -/
def resultado (s : SrvState) (jobId : String) : PollResponse :=
  match mapGet s.jobs jobId with
  | none => PollResponse.notFound
  | some job =>
      match job.status with
      | JobStatus.queued =>
          let queuePosition :=
            match s.queue.findIdx? (fun q => q.1 == jobId) with
            | some i => i + 1
            | none => 0
          PollResponse.queuedResp jobId queuePosition job.numero_radicacion
      | JobStatus.processing => PollResponse.processingResp jobId job.numero_radicacion
      | JobStatus.completed => PollResponse.completedResp jobId job.result
      | JobStatus.failed => PollResponse.failedResp jobId job.error

/-- Terminal records survive any single event unchanged (or are evicted). -/
theorem terminal_preserved_step {C : Nat} {s s' : SrvState} (h : Inv C s)
    (hs : Step C s s') {jid : String} {r : JobRecord}
    (hget : mapGet s.jobs jid = some r)
    (hterm : r.status = JobStatus.completed ∨ r.status = JobStatus.failed) :
    mapGet s'.jobs jid = some r ∨ mapGet s'.jobs jid = none := by
  have hstatus : r.status ≠ JobStatus.queued ∧ r.status ≠ JobStatus.processing := by
    rcases hterm with hc | hc <;> rw [hc] <;> exact ⟨by simp, by simp⟩
  cases hs with
  | submit jobId radicado now hfresh hvalid =>
      have hj : jid ≠ jobId := by
        intro hh
        subst hh
        exact hfresh (h.keysSub _ (mem_mapKeys_of_get hget))
      left
      rw [submitEffect_jobs, mapGet_set_ne _ _ _ _ hj]
      exact hget
  | start jobId radicado rest hcap hq =>
      have hj : jid ≠ jobId := by
        intro hh
        subst hh
        have hmem : jid ∈ queueIds s := by
          simp [queueIds, hq]
        exact hstatus.1 (h.queueQueued jid hmem r hget)
      left
      rw [show (startEffect s jobId radicado rest).jobs =
            updateJob jobId _ s.jobs from rfl, mapGet_updateJob_ne _ _ _ _ hj]
      exact hget
  | completeOk jobId radicado resultado l1 l2 hrun =>
      have hj : jid ≠ jobId := by
        intro hh
        subst hh
        have hmem : jid ∈ runningIds s := by
          simp [runningIds, hrun]
        exact hstatus.2 (h.runProc jid hmem r hget)
      left
      rw [show (completeOkEffect s jobId resultado l1 l2).jobs =
            updateJob jobId _ s.jobs from rfl, mapGet_updateJob_ne _ _ _ _ hj]
      exact hget
  | completeErr jobId radicado message l1 l2 hrun =>
      have hj : jid ≠ jobId := by
        intro hh
        subst hh
        have hmem : jid ∈ runningIds s := by
          simp [runningIds, hrun]
        exact hstatus.2 (h.runProc jid hmem r hget)
      left
      rw [show (completeErrEffect s jobId message l1 l2).jobs =
            updateJob jobId _ s.jobs from rfl, mapGet_updateJob_ne _ _ _ _ hj]
      exact hget
  | sweep now =>
      have hsw : mapGet (sweepEffect s now).jobs jid =
          if decide (now - r.createdAt ≤ 600000) = true then some r else none := by
        show mapGet (sweepMap now s.jobs) jid = _
        rw [sweepMap, mapGet_filter_of_get _ h.keysNodup hget]
      by_cases hp : decide (now - r.createdAt ≤ 600000) = true
      · left; rw [hsw, if_pos hp]
      · right; rw [hsw, if_neg hp]

/-- No event re-inserts a record whose identifier has already been used. -/
theorem absent_preserved_step {C : Nat} {s s' : SrvState} (hs : Step C s s')
    {jid : String} (hsub : jid ∈ s.submitted)
    (hnone : mapGet s.jobs jid = none) : mapGet s'.jobs jid = none := by
  cases hs with
  | submit jobId radicado now hfresh hvalid =>
      have hj : jid ≠ jobId := fun hh => hfresh (hh ▸ hsub)
      rw [submitEffect_jobs, mapGet_set_ne _ _ _ _ hj]
      exact hnone
  | start jobId radicado rest hcap hq =>
      show mapGet (updateJob jobId _ s.jobs) jid = none
      by_cases hj : jid = jobId
      · subst hj
        rw [mapGet_updateJob_self, hnone]
        rfl
      · rw [mapGet_updateJob_ne _ _ _ _ hj]
        exact hnone
  | completeOk jobId radicado resultado l1 l2 hrun =>
      show mapGet (updateJob jobId _ s.jobs) jid = none
      by_cases hj : jid = jobId
      · subst hj
        rw [mapGet_updateJob_self, hnone]
        rfl
      · rw [mapGet_updateJob_ne _ _ _ _ hj]
        exact hnone
  | completeErr jobId radicado message l1 l2 hrun =>
      show mapGet (updateJob jobId _ s.jobs) jid = none
      by_cases hj : jid = jobId
      · subst hj
        rw [mapGet_updateJob_self, hnone]
        rfl
      · rw [mapGet_updateJob_ne _ _ _ _ hj]
        exact hnone
  | sweep now =>
      exact mapGet_filter_of_none _ hnone

theorem submitted_mono_step {C : Nat} {s s' : SrvState} (hs : Step C s s') :
    ∀ x ∈ s.submitted, x ∈ s'.submitted := by
  cases hs with
  | submit jobId radicado now hfresh hvalid =>
      intro x hx
      exact List.mem_append_left _ hx
  | start jobId radicado rest hcap hq => intro x hx; exact hx
  | completeOk jobId radicado resultado l1 l2 hrun => intro x hx; exact hx
  | completeErr jobId radicado message l1 l2 hrun => intro x hx; exact hx
  | sweep now => intro x hx; exact hx

theorem submitted_mono_star {C : Nat} {s s' : SrvState} (hs : StepStar C s s') :
    ∀ x ∈ s.submitted, x ∈ s'.submitted := by
  induction hs with
  | refl => intro x hx; exact hx
  | tail hstar hstep ih =>
      intro x hx
      exact submitted_mono_step hstep x (ih x hx)

/-- Terminal records survive any sequence of events unchanged (or are
evicted, never to return). -/
theorem terminal_stable {C : Nat} {s s' : SrvState} (hinv : Inv C s)
    (hsteps : StepStar C s s') {jid : String} {r : JobRecord}
    (hget : mapGet s.jobs jid = some r)
    (hterm : r.status = JobStatus.completed ∨ r.status = JobStatus.failed) :
    mapGet s'.jobs jid = some r ∨ mapGet s'.jobs jid = none := by
  induction hsteps with
  | refl => left; exact hget
  | tail hstar hstep ih =>
      have hinvMid := inv_star hinv hstar
      have hsubMid : jid ∈ _ :=
        submitted_mono_star hstar jid (hinv.keysSub _ (mem_mapKeys_of_get hget))
      rcases ih with hmid | hmid
      · exact terminal_preserved_step hinvMid hstep hmid hterm
      · right
        exact absent_preserved_step hstep hsubMid hmid

/-- The 23-digit radicación used in all concrete witness states. -/
def demoRad : String := "11001310300020210012300"

def demoS1 : SrvState := submitEffect initState "job_1" demoRad 0

def demoS2 : SrvState := startEffect demoS1 "job_1" demoRad []

theorem demo_reachable : Reachable 2 demoS2 :=
  StepStar.tail
    (StepStar.tail (StepStar.refl _)
      (Step.submit initState "job_1" demoRad 0 (by decide) (by decide)))
    (Step.start demoS1 "job_1" demoRad [] (by decide) rfl)

/-- C1: for every configured ceiling `C` (2 in the code) and every sequence
of submits, admissions, completions and sweeps, the number of jobs whose
status is `"processing"` and the value of `activeJobs` never exceed `C`:
`processQueue` admits a queued entry only when `activeJobs < C`, increments
`activeJobs` on admission and decrements it on completion. -/
theorem c1_concurrency_ceiling (C : Nat) (s : SrvState) (h : Reachable C s) :
    countProcessing s ≤ C ∧ s.activeJobs ≤ C := by
  have hinv := inv_reachable h
  refine ⟨?_, hinv.activeLe⟩
  have hkeysnd : (mapKeys (s.jobs.filter
      (fun p => decide (p.2.status = JobStatus.processing)))).Nodup :=
    List.Nodup.sublist (mapKeys_filter_sublist _ _) hinv.keysNodup
  have hsubset : mapKeys (s.jobs.filter
      (fun p => decide (p.2.status = JobStatus.processing))) ⊆ runningIds s := by
    intro x hx
    rcases List.mem_map.mp hx with ⟨⟨k, v⟩, hmem, hfst⟩
    have hm := List.mem_filter.mp hmem
    have hget : mapGet s.jobs k = some v := mapGet_of_mem hinv.keysNodup hm.1
    have hst : v.status = JobStatus.processing := of_decide_eq_true hm.2
    exact hfst ▸ hinv.procRun k v hget hst
  have hlen : (mapKeys (s.jobs.filter
      (fun p => decide (p.2.status = JobStatus.processing)))).length ≤
      (runningIds s).length :=
    List.Subperm.length_le (List.subperm_of_subset hkeysnd hsubset)
  have h1 : countProcessing s = (mapKeys (s.jobs.filter
      (fun p => decide (p.2.status = JobStatus.processing)))).length := by
    rw [countProcessing, mapKeys, List.length_map]
  have h2 : (runningIds s).length = s.activeJobs := by
    rw [runningIds, List.length_map, hinv.activeEq]
  rw [h1]
  exact Nat.le_trans hlen (h2 ▸ hinv.activeLe)

theorem c1_concurrency_ceiling_witness :
    countProcessing demoS2 ≤ 2 ∧ demoS2.activeJobs ≤ 2 :=
  c1_concurrency_ceiling 2 demoS2 demo_reachable

/-- The status transitions the server.js code can make on one record:
unchanged, admission (`queued → processing`), or resolution
(`processing → completed/failed`). -/
def allowedTransition (a b : JobStatus) : Prop :=
  b = a ∨
  (a = JobStatus.queued ∧ b = JobStatus.processing) ∨
  (a = JobStatus.processing ∧ (b = JobStatus.completed ∨ b = JobStatus.failed))

/-- C2: a job's status only ever changes along
`queued → processing → completed/failed`: `createJob` initializes it to
`"queued"`, a record that appears after an event was created `"queued"`,
and across any event an existing record's status either stays the same,
moves from `"queued"` to `"processing"` on admission, or moves from
`"processing"` to `"completed"`/`"failed"` on resolution; in particular a
terminal status never changes again. -/
theorem c2_status_chain (C : Nat) (s s' : SrvState) (h : Reachable C s)
    (hs : Step C s s') (jid : String) :
    (mapGet s.jobs jid = none → ∀ r', mapGet s'.jobs jid = some r' →
       r'.status = JobStatus.queued) ∧
    (∀ r r', mapGet s.jobs jid = some r → mapGet s'.jobs jid = some r' →
       allowedTransition r.status r'.status) := by
  have hinv := inv_reachable h
  cases hs with
  | submit jobId radicado now hfresh hvalid =>
      constructor
      · intro hnone r' hget'
        by_cases hj : jid = jobId
        · subst hj
          rw [submitEffect_jobs, mapGet_set_self] at hget'
          cases hget'
          rfl
        · rw [submitEffect_jobs, mapGet_set_ne _ _ _ _ hj, hnone] at hget'
          exact Option.noConfusion hget'
      · intro r r' hget hget'
        by_cases hj : jid = jobId
        · subst hj
          have : mapGet s.jobs jid = none :=
            (mapGet_eq_none_iff _ _).mpr (fun hmem => hfresh (hinv.keysSub _ hmem))
          rw [this] at hget
          exact Option.noConfusion hget
        · rw [submitEffect_jobs, mapGet_set_ne _ _ _ _ hj, hget] at hget'
          cases hget'
          exact Or.inl rfl
  | start jobId radicado rest hcap hq =>
      constructor
      · intro hnone r' hget'
        by_cases hj : jid = jobId
        · subst hj
          rw [show (startEffect s jid radicado rest).jobs =
                updateJob jid _ s.jobs from rfl,
              mapGet_updateJob_self, hnone] at hget'
          exact Option.noConfusion hget'
        · rw [show (startEffect s jobId radicado rest).jobs =
                updateJob jobId _ s.jobs from rfl,
              mapGet_updateJob_ne _ _ _ _ hj, hnone] at hget'
          exact Option.noConfusion hget'
      · intro r r' hget hget'
        by_cases hj : jid = jobId
        · subst hj
          rw [show (startEffect s jid radicado rest).jobs =
                updateJob jid _ s.jobs from rfl,
              mapGet_updateJob_self, hget] at hget'
          simp only [Option.map_some'] at hget'
          cases hget'
          have hq0 : r.status = JobStatus.queued := by
            refine hinv.queueQueued jid ?_ r hget
            simp [queueIds, hq]
          exact Or.inr (Or.inl ⟨hq0, rfl⟩)
        · rw [show (startEffect s jobId radicado rest).jobs =
                updateJob jobId _ s.jobs from rfl,
              mapGet_updateJob_ne _ _ _ _ hj, hget] at hget'
          cases hget'
          exact Or.inl rfl
  | completeOk jobId radicado resultado l1 l2 hrun =>
      constructor
      · intro hnone r' hget'
        by_cases hj : jid = jobId
        · subst hj
          rw [show (completeOkEffect s jid resultado l1 l2).jobs =
                updateJob jid _ s.jobs from rfl,
              mapGet_updateJob_self, hnone] at hget'
          exact Option.noConfusion hget'
        · rw [show (completeOkEffect s jobId resultado l1 l2).jobs =
                updateJob jobId _ s.jobs from rfl,
              mapGet_updateJob_ne _ _ _ _ hj, hnone] at hget'
          exact Option.noConfusion hget'
      · intro r r' hget hget'
        by_cases hj : jid = jobId
        · subst hj
          rw [show (completeOkEffect s jid resultado l1 l2).jobs =
                updateJob jid _ s.jobs from rfl,
              mapGet_updateJob_self, hget] at hget'
          simp only [Option.map_some'] at hget'
          cases hget'
          have hp0 : r.status = JobStatus.processing := by
            refine hinv.runProc jid ?_ r hget
            simp [runningIds, hrun]
          exact Or.inr (Or.inr ⟨hp0, Or.inl rfl⟩)
        · rw [show (completeOkEffect s jobId resultado l1 l2).jobs =
                updateJob jobId _ s.jobs from rfl,
              mapGet_updateJob_ne _ _ _ _ hj, hget] at hget'
          cases hget'
          exact Or.inl rfl
  | completeErr jobId radicado message l1 l2 hrun =>
      constructor
      · intro hnone r' hget'
        by_cases hj : jid = jobId
        · subst hj
          rw [show (completeErrEffect s jid message l1 l2).jobs =
                updateJob jid _ s.jobs from rfl,
              mapGet_updateJob_self, hnone] at hget'
          exact Option.noConfusion hget'
        · rw [show (completeErrEffect s jobId message l1 l2).jobs =
                updateJob jobId _ s.jobs from rfl,
              mapGet_updateJob_ne _ _ _ _ hj, hnone] at hget'
          exact Option.noConfusion hget'
      · intro r r' hget hget'
        by_cases hj : jid = jobId
        · subst hj
          rw [show (completeErrEffect s jid message l1 l2).jobs =
                updateJob jid _ s.jobs from rfl,
              mapGet_updateJob_self, hget] at hget'
          simp only [Option.map_some'] at hget'
          cases hget'
          have hp0 : r.status = JobStatus.processing := by
            refine hinv.runProc jid ?_ r hget
            simp [runningIds, hrun]
          exact Or.inr (Or.inr ⟨hp0, Or.inr rfl⟩)
        · rw [show (completeErrEffect s jobId message l1 l2).jobs =
                updateJob jobId _ s.jobs from rfl,
              mapGet_updateJob_ne _ _ _ _ hj, hget] at hget'
          cases hget'
          exact Or.inl rfl
  | sweep now =>
      constructor
      · intro hnone r' hget'
        rw [show (sweepEffect s now).jobs = sweepMap now s.jobs from rfl,
            sweepMap, mapGet_filter_of_none _ hnone] at hget'
        exact Option.noConfusion hget'
      · intro r r' hget hget'
        rw [show (sweepEffect s now).jobs = sweepMap now s.jobs from rfl,
            sweepMap, mapGet_filter_of_get _ hinv.keysNodup hget] at hget'
        by_cases hp : decide (now - r.createdAt ≤ 600000) = true
        · rw [if_pos hp] at hget'
          cases hget'
          exact Or.inl rfl
        · rw [if_neg hp] at hget'
          exact Option.noConfusion hget'

theorem c2_status_chain_witness :
    (mapGet demoS1.jobs "job_1" = none → ∀ r',
       mapGet demoS2.jobs "job_1" = some r' → r'.status = JobStatus.queued) ∧
    (∀ r r', mapGet demoS1.jobs "job_1" = some r →
       mapGet demoS2.jobs "job_1" = some r' →
       allowedTransition r.status r'.status) :=
  c2_status_chain 2 demoS1 demoS2
    (StepStar.tail (StepStar.refl _)
      (Step.submit initState "job_1" demoRad 0 (by decide) (by decide)))
    (Step.start demoS1 "job_1" demoRad [] (by decide) rfl) "job_1"

/-- C4: jobs leave the queued state in strict submission order: in every
reachable state the identifiers already admitted (`started`, in admission
order) followed by the identifiers still in the queue (in queue order)
are exactly the identifiers in submission order, because `/buscar` appends
to the tail and `processQueue` admits with `queue.shift()` from the
head. -/
theorem c4_fifo_admission (C : Nat) (s : SrvState) (h : Reachable C s) :
    s.started ++ s.queue.map Prod.fst = s.submitted :=
  (inv_reachable h).fifo

theorem c4_fifo_admission_witness :
    demoS2.started ++ demoS2.queue.map Prod.fst = demoS2.submitted :=
  c4_fifo_admission 2 demoS2 demo_reachable

/-- C3: while a job is `"queued"` or `"processing"` both `result` and
`error` are `null`; once terminal, exactly one of them is set (`result`
iff `"completed"`, `error` iff `"failed"`); and a terminal record is never
written again, so polling `/resultado/:jobId` for a terminal job that is
still in the store yields the same payload after any further events. -/
theorem c3_result_error_discipline (C : Nat) (s : SrvState) (h : Reachable C s) :
    (∀ jid r, mapGet s.jobs jid = some r →
       ((r.status = JobStatus.queued ∨ r.status = JobStatus.processing) →
          r.result = none ∧ r.error = none) ∧
       (r.status = JobStatus.completed → r.result.isSome ∧ r.error = none) ∧
       (r.status = JobStatus.failed → r.error.isSome ∧ r.result = none)) ∧
    (∀ s', StepStar C s s' → ∀ jid r r',
       (r.status = JobStatus.completed ∨ r.status = JobStatus.failed) →
       mapGet s.jobs jid = some r → mapGet s'.jobs jid = some r' →
       r' = r ∧ resultado s' jid = resultado s jid) := by
  have hinv := inv_reachable h
  constructor
  · intro jid r hget
    have hfi := hinv.fields jid r hget
    refine ⟨?_, ?_, ?_⟩
    · intro hqp
      rcases hqp with hc | hc <;> simp only [FieldInv, hc] at hfi <;> exact hfi
    · intro hc
      simp only [FieldInv, hc] at hfi
      exact hfi
    · intro hc
      simp only [FieldInv, hc] at hfi
      exact hfi
  · intro s' hsteps jid r r' hterm hget hget'
    rcases terminal_stable hinv hsteps hget hterm with hk | hk
    · rw [hk] at hget'
      have hrr : r' = r := by
        injection hget' with hh
        exact hh.symm
      subst hrr
      refine ⟨rfl, ?_⟩
      rcases hterm with hc | hc
      · simp [resultado, hk, hget, hc]
      · simp [resultado, hk, hget, hc]
    · rw [hk] at hget'
      exact Option.noConfusion hget'

def demoS3 : SrvState := completeOkEffect demoS2 "job_1" "RESULT" [] []

theorem demo3_reachable : Reachable 2 demoS3 :=
  StepStar.tail demo_reachable
    (Step.completeOk demoS2 "job_1" demoRad "RESULT" [] [] rfl)

/-- The record of `job_1` in `demoS3`: completed with its result set. -/
def demoRecC : JobRecord :=
  { status := JobStatus.completed, numero_radicacion := demoRad,
    result := some "RESULT", error := none, createdAt := 0 }

theorem c3_result_error_discipline_witness :
    (demoRecC.status = JobStatus.completed →
       demoRecC.result.isSome ∧ demoRecC.error = none) ∧
    (demoRecC = demoRecC ∧
       resultado (sweepEffect demoS3 0) "job_1" = resultado demoS3 "job_1") :=
  ⟨((c3_result_error_discipline 2 demoS3 demo3_reachable).1 "job_1" demoRecC
      (by decide)).2.1,
   (c3_result_error_discipline 2 demoS3 demo3_reachable).2 (sweepEffect demoS3 0)
     (StepStar.tail (StepStar.refl _) (Step.sweep demoS3 0)) "job_1" demoRecC demoRecC
     (Or.inl rfl) (by decide) (by decide)⟩

/-- The responses of the `/buscar` handler (server.js lines 343-377):
`400` for a missing parameter, `400` for a wrong digit count (reporting the
stripped length), or `200` with the new job id, the stripped digits and the
queue position (`queue.length` after the push). -/
inductive BuscarResp where
  | missingParam
  | wrongLength (got : Nat)
  | accepted (jobId : String) (soloDigitos : String) (queuePosition : Nat)
deriving DecidableEq, Repr

/-- server.js lines 343-377: `if (!radicado)` reject (a missing or empty
string parameter is falsy); strip non-digits; reject unless exactly 23
remain; otherwise `createJob(soloDigitos)`, push `(jobId, radicado)` and
answer.  The generated job id and the current time are passed explicitly. -/
def buscar (radicado : Option String) (jobId : String) (now : Nat)
    (s : SrvState) : SrvState × BuscarResp :=
  match radicado with
  | none => (s, BuscarResp.missingParam)
  | some rad =>
      if rad = "" then (s, BuscarResp.missingParam)
      else
        let soloDigitos := stripNonDigits rad
        if soloDigitos.length ≠ 23 then
          (s, BuscarResp.wrongLength soloDigitos.length)
        else
          let s' := submitEffect s jobId rad now
          (s', BuscarResp.accepted jobId soloDigitos s'.queue.length)

/-- C8: `/buscar` validates before creating any state: the parameter is
stripped of non-digits, and when it is missing or the stripped string does
not have exactly 23 characters the handler answers 400 with the state
untouched (no job record, no queue entry); when the stripped input has
exactly 23 digits — and only then — a job record is created (queued, with
the stripped digits) and a queue entry is appended. -/
theorem c8_buscar_validation (radicado : Option String) (jobId : String)
    (now : Nat) (s : SrvState) :
    (radicado = none → buscar radicado jobId now s = (s, BuscarResp.missingParam)) ∧
    (∀ rad, radicado = some rad → (stripNonDigits rad).length ≠ 23 →
       buscar radicado jobId now s =
         (s, if rad = "" then BuscarResp.missingParam
             else BuscarResp.wrongLength (stripNonDigits rad).length)) ∧
    (∀ rad, radicado = some rad → (stripNonDigits rad).length = 23 →
       buscar radicado jobId now s =
         (submitEffect s jobId rad now,
          BuscarResp.accepted jobId (stripNonDigits rad) (s.queue.length + 1)) ∧
       mapGet (submitEffect s jobId rad now).jobs jobId = some
         { status := JobStatus.queued, numero_radicacion := stripNonDigits rad,
           result := none, error := none, createdAt := now } ∧
       (submitEffect s jobId rad now).queue = s.queue ++ [(jobId, rad)]) := by
  refine ⟨?_, ?_, ?_⟩
  · intro h
    subst h
    rfl
  · intro rad h hlen
    subst h
    by_cases hemp : rad = ""
    · simp [buscar, hemp]
    · simp [buscar, hemp, hlen]
  · intro rad h hlen
    subst h
    have hemp : ¬ (rad = "") := by
      intro hh
      subst hh
      have : stripNonDigits "" = "" := rfl
      rw [this] at hlen
      exact absurd hlen (by decide)
    refine ⟨?_, ?_, rfl⟩
    · simp [buscar, hemp, hlen, submitEffect]
    · rw [submitEffect_jobs, mapGet_set_self]

theorem c8_buscar_validation_witness :
    buscar (some demoRad) "job_9" 5 initState =
      (submitEffect initState "job_9" demoRad 5,
       BuscarResp.accepted "job_9" (stripNonDigits demoRad)
         (initState.queue.length + 1)) ∧
    mapGet (submitEffect initState "job_9" demoRad 5).jobs "job_9" = some
      { status := JobStatus.queued, numero_radicacion := stripNonDigits demoRad,
        result := none, error := none, createdAt := 5 } ∧
    (submitEffect initState "job_9" demoRad 5).queue =
      initState.queue ++ [("job_9", demoRad)] :=
  (c8_buscar_validation (some demoRad) "job_9" 5 initState).2.2 demoRad rfl
    (by decide)

/-- C9: one sweep of the cleanup interval deletes exactly the jobs older
than the 600000 ms TTL — whatever their status — and leaves every younger
record bound unchanged. -/
theorem c9_ttl_sweep (now : Nat) (jobs : JobsMap) (jid : String) (r : JobRecord)
    (hnd : (mapKeys jobs).Nodup) (hget : mapGet jobs jid = some r) :
    (now - r.createdAt > 600000 → mapGet (sweepMap now jobs) jid = none) ∧
    (now - r.createdAt ≤ 600000 → mapGet (sweepMap now jobs) jid = some r) := by
  constructor
  · intro hage
    rw [sweepMap, mapGet_filter_of_get _ hnd hget, if_neg]
    simp only [decide_eq_true_eq]
    omega
  · intro hage
    rw [sweepMap, mapGet_filter_of_get _ hnd hget, if_pos (decide_eq_true hage)]

/-- A record still mid-execution, used in the sweep and update witnesses. -/
def oldRec : JobRecord :=
  { status := JobStatus.processing, numero_radicacion := demoRad,
    result := none, error := none, createdAt := 0 }

theorem c9_ttl_sweep_witness :
    mapGet (sweepMap 700001 [("a", oldRec)]) "a" = none ∧
    mapGet (sweepMap 600000 [("a", oldRec)]) "a" = some oldRec :=
  ⟨(c9_ttl_sweep 700001 [("a", oldRec)] "a" oldRec (by decide) (by decide)).1
      (by decide),
   (c9_ttl_sweep 600000 [("a", oldRec)] "a" oldRec (by decide) (by decide)).2
      (by decide)⟩

/-- C10: `updateJob` on an absent identifier leaves the store completely
unchanged (in particular a completion arriving after TTL eviction does not
re-insert a record); on a present identifier it merges only the supplied
fields into that record and leaves every other field and every other
record untouched. -/
theorem c10_updateJob_frame (jobId : String) (u : JobUpdate) (m : JobsMap) :
    (mapGet m jobId = none → updateJob jobId u m = m) ∧
    (∀ r, mapGet m jobId = some r →
       mapGet (updateJob jobId u m) jobId = some (applyUpdate r u) ∧
       (u.status = none → (applyUpdate r u).status = r.status) ∧
       (u.numero_radicacion = none →
          (applyUpdate r u).numero_radicacion = r.numero_radicacion) ∧
       (u.result = none → (applyUpdate r u).result = r.result) ∧
       (u.error = none → (applyUpdate r u).error = r.error) ∧
       (u.createdAt = none → (applyUpdate r u).createdAt = r.createdAt)) ∧
    (∀ j, j ≠ jobId → mapGet (updateJob jobId u m) j = mapGet m j) := by
  refine ⟨fun h => updateJob_absent u h, ?_, fun j hj => mapGet_updateJob_ne _ _ _ _ hj⟩
  intro r hget
  refine ⟨?_, ?_, ?_, ?_, ?_, ?_⟩
  · rw [mapGet_updateJob_self, hget]
    rfl
  · intro h; simp [applyUpdate, h]
  · intro h; simp [applyUpdate, h]
  · intro h; simp [applyUpdate, h]
  · intro h; simp [applyUpdate, h]
  · intro h; simp [applyUpdate, h]

/-- The update object of `processQueue`'s success branch, for the C10
witness. -/
def demoUpd : JobUpdate :=
  { status := some JobStatus.completed, result := some (some "X") }

theorem c10_updateJob_frame_witness :
    updateJob "b" demoUpd [("a", oldRec)] = [("a", oldRec)] ∧
    mapGet (updateJob "a" demoUpd [("a", oldRec)]) "a" =
      some (applyUpdate oldRec demoUpd) ∧
    (applyUpdate oldRec demoUpd).error = oldRec.error ∧
    mapGet (updateJob "a" demoUpd [("a", oldRec)]) "b" =
      mapGet [("a", oldRec)] "b" :=
  ⟨(c10_updateJob_frame "b" demoUpd [("a", oldRec)]).1 (by decide),
   ((c10_updateJob_frame "a" demoUpd [("a", oldRec)]).2.1 oldRec (by decide)).1,
   ((c10_updateJob_frame "a" demoUpd [("a", oldRec)]).2.1 oldRec
      (by decide)).2.2.2.2.1 rfl,
   (c10_updateJob_frame "a" demoUpd [("a", oldRec)]).2.2 "b" (by decide)⟩

namespace V41

/-- part_002 (server.js v4.1): `const JOB_TIMEOUT_MS = 90 * 1000`. -/
def JOB_TIMEOUT_MS : Nat := 90000

/-- The state the v4.1 `processQueue` manipulates. -/
structure V41State where
  jobs : JobsMap
  queue : List (String × String)
  activeJobs : Nat
deriving Repr

/-- The behaviour of `consultaRama(numeroRadicacion, jobId)` for one job:
the number of milliseconds until its promise settles, and its settlement
(resolution value or rejection message). -/
abbrev Oracle := String → String → Nat × Except String String

/-- `Promise.race([consultaRama(...), timeoutPromise])` where
`timeoutPromise` rejects with `new Error("Job timeout (90s)")` after
`JOB_TIMEOUT_MS`: the race settles like the execution when it settles
within the bound, and like the timeout rejection otherwise. -/
def raceOutcome (d : Nat) (natural : Except String String) : Except String String :=
  if d ≤ JOB_TIMEOUT_MS then natural else Except.error "Job timeout (90s)"

/-- The `try`/`catch` of the v4.1 `processQueue`: on resolution mark the
job completed with the result, on rejection mark it failed with the
message. -/
def applyOutcome (jobId : String) (outcome : Except String String)
    (jobs : JobsMap) : JobsMap :=
  match outcome with
  | Except.ok r =>
      updateJob jobId
        { status := some JobStatus.completed, result := some (some r) } jobs
  | Except.error m =>
      updateJob jobId
        { status := some JobStatus.failed, error := some (some m) } jobs

/-- part_002 lines 47-76, sequential semantics: return when the ceiling is
reached or the queue is empty; otherwise shift the head, increment
`activeJobs`, mark it processing, race the execution against the 90 s
timeout, record the outcome, and in the `finally` decrement `activeJobs`
and re-invoke `processQueue`. -/
def processQueue (oracle : Oracle) (jobs : JobsMap) (activeJobs : Nat) :
    List (String × String) → V41State
  | [] => { jobs := jobs, queue := [], activeJobs := activeJobs }
  | (jobId, numeroRadicacion) :: rest =>
      if activeJobs ≥ MAX_CONCURRENT_JOBS then
        { jobs := jobs, queue := (jobId, numeroRadicacion) :: rest,
          activeJobs := activeJobs }
      else
        let jobs1 := updateJob jobId { status := some JobStatus.processing } jobs
        let settled := oracle jobId numeroRadicacion
        let jobs2 := applyOutcome jobId (raceOutcome settled.1 settled.2) jobs1
        processQueue oracle jobs2 ((activeJobs + 1) - 1) rest

theorem mapGet_applyOutcome_ne (jobId : String) (outcome : Except String String)
    (jobs : JobsMap) (j : String) (hj : j ≠ jobId) :
    mapGet (applyOutcome jobId outcome jobs) j = mapGet jobs j := by
  cases outcome with
  | ok r => exact mapGet_updateJob_ne _ _ _ _ hj
  | error m => exact mapGet_updateJob_ne _ _ _ _ hj

theorem processQueue_drains (oracle : Oracle) (jobs : JobsMap) (a : Nat)
    (q : List (String × String)) (h : a < MAX_CONCURRENT_JOBS) :
    (processQueue oracle jobs a q).queue = [] ∧
    (processQueue oracle jobs a q).activeJobs = a := by
  induction q generalizing jobs with
  | nil => exact ⟨rfl, rfl⟩
  | cons hd rest ih =>
      obtain ⟨jobId, rad⟩ := hd
      have hlt : ¬ (a ≥ MAX_CONCURRENT_JOBS) := Nat.not_le.mpr h
      simp only [processQueue, if_neg hlt]
      exact ih _

theorem processQueue_mapGet_notin (oracle : Oracle) (jobs : JobsMap) (a : Nat)
    (q : List (String × String)) (j : String) (hj : j ∉ q.map Prod.fst) :
    mapGet (processQueue oracle jobs a q).jobs j = mapGet jobs j := by
  induction q generalizing jobs with
  | nil => rfl
  | cons hd rest ih =>
      obtain ⟨jobId, rad⟩ := hd
      have hj1 : j ≠ jobId := by
        intro hh
        exact hj (by simp [hh])
      have hj2 : j ∉ rest.map Prod.fst := by
        intro hh
        exact hj (by simp [hh])
      by_cases hcap : a ≥ MAX_CONCURRENT_JOBS
      · simp only [processQueue, if_pos hcap]
      · simp only [processQueue, if_neg hcap]
        rw [Nat.add_sub_cancel, ih _ hj2, mapGet_applyOutcome_ne _ _ _ _ hj1,
          mapGet_updateJob_ne _ _ _ _ hj1]

/-- C5: in the v4.1 `processQueue` every admitted execution is raced
against the 90 s timeout: when the execution of the admitted queue head
takes longer than `JOB_TIMEOUT_MS`, its job ends `"failed"` with the
timeout error `"Job timeout (90s)"`, the `finally` path restores
`activeJobs` to its previous value, and the recursive re-drive admits the
remaining queue entries (the queue drains). -/
theorem c5_execution_timeout (oracle : Oracle) (jobs : JobsMap)
    (activeJobs : Nat) (jobId numeroRadicacion : String)
    (rest : List (String × String)) (r : JobRecord) (d : Nat)
    (natural : Except String String)
    (hcap : activeJobs < MAX_CONCURRENT_JOBS)
    (ho : oracle jobId numeroRadicacion = (d, natural))
    (hd : JOB_TIMEOUT_MS < d)
    (hpresent : mapGet jobs jobId = some r)
    (hnotin : jobId ∉ rest.map Prod.fst) :
    (∃ r', mapGet (processQueue oracle jobs activeJobs
         ((jobId, numeroRadicacion) :: rest)).jobs jobId = some r' ∧
       r'.status = JobStatus.failed ∧ r'.error = some "Job timeout (90s)") ∧
    (processQueue oracle jobs activeJobs
       ((jobId, numeroRadicacion) :: rest)).activeJobs = activeJobs ∧
    (processQueue oracle jobs activeJobs
       ((jobId, numeroRadicacion) :: rest)).queue = [] := by
  have hlt : ¬ (activeJobs ≥ MAX_CONCURRENT_JOBS) := Nat.not_le.mpr hcap
  have hrace : raceOutcome (oracle jobId numeroRadicacion).1
      (oracle jobId numeroRadicacion).2 = Except.error "Job timeout (90s)" := by
    rw [ho]
    exact if_neg (Nat.not_le.mpr hd)
  refine ⟨?_, (processQueue_drains _ _ _ _ hcap).2, (processQueue_drains _ _ _ _ hcap).1⟩
  simp only [processQueue, if_neg hlt]
  rw [processQueue_mapGet_notin _ _ _ _ _ hnotin, hrace]
  show (∃ r', mapGet (updateJob jobId
      { status := some JobStatus.failed, error := some (some "Job timeout (90s)") }
      (updateJob jobId { status := some JobStatus.processing } jobs)) jobId =
        some r' ∧ _)
  rw [mapGet_updateJob_self, mapGet_updateJob_self, hpresent]
  exact ⟨_, rfl, rfl, rfl⟩

/-- The execution behaviour used in the C5 witness: it would resolve after
100 s, past the 90 s bound. -/
def demoOracle : Oracle := fun _ _ => (100000, Except.ok "ok")

theorem c5_execution_timeout_witness :
    (∃ r', mapGet (processQueue demoOracle [("j1", oldRec)] 0
         [("j1", "x")]).jobs "j1" = some r' ∧
       r'.status = JobStatus.failed ∧ r'.error = some "Job timeout (90s)") ∧
    (processQueue demoOracle [("j1", oldRec)] 0 [("j1", "x")]).activeJobs = 0 ∧
    (processQueue demoOracle [("j1", oldRec)] 0 [("j1", "x")]).queue = [] :=
  c5_execution_timeout demoOracle [("j1", oldRec)] 0 "j1" "x" [] oldRec
    100000 (Except.ok "ok") (by decide) rfl (by decide) (by decide) (by decide)

end V41

/-- The browser-singleton cell: `browserPromise` holds the identifier of
the launch attempt it was assigned (or `none` for the JavaScript `null`),
and `launchCount` counts the `chromium.launch` invocations so far; attempt
identifiers are issued in launch order. -/
structure PoolState where
  browserPromise : Option Nat
  launchCount : Nat
deriving DecidableEq, Repr

/-- The pool at boot: `let browserPromise = null`, no launch yet. -/
def poolInit : PoolState := { browserPromise := none, launchCount := 0 }

/-- server.js lines 106-124 (the same synchronous skeleton as part_003):
`if (!browserPromise) { browserPromise = chromium.launch({...}); } return
browserPromise;` — the check and the assignment happen in one synchronous
step, so no other call can interleave before `browserPromise` is set. -/
def getBrowser (s : PoolState) : PoolState × Nat :=
  match s.browserPromise with
  | some p => (s, p)
  | none =>
      ({ browserPromise := some s.launchCount, launchCount := s.launchCount + 1 },
       s.launchCount)

/-- server.js v3.2: no rejection handler is attached to the launch
promise, so when the launch fails the cell still holds the rejected
promise. -/
def onLaunchFailure (s : PoolState) : PoolState := s

/-- part_003 (v2.0) lines 48-57: the `.catch` handler runs when the launch
promise rejects, sets `browserPromise = null` and rethrows, so the failure
reaches every awaiting caller and the cell returns to uninitialized. -/
def onLaunchFailureReset (s : PoolState) : PoolState :=
  { s with browserPromise := none }

/-- `n` consecutive `getBrowser()` calls (no settlement in between);
returns the final state and the promise each caller received, in call
order. -/
def getBrowserCalls : Nat → PoolState → PoolState × List Nat
  | 0, s => (s, [])
  | n + 1, s =>
      let first := getBrowser s
      let restCalls := getBrowserCalls n first.1
      (restCalls.1, first.2 :: restCalls.2)

theorem getBrowserCalls_cached (n : Nat) (p c : Nat) :
    getBrowserCalls n { browserPromise := some p, launchCount := c } =
      ({ browserPromise := some p, launchCount := c }, List.replicate n p) := by
  induction n with
  | zero => rfl
  | succ m ih => simp [getBrowserCalls, getBrowser, ih, List.replicate]

/-- C7: `getBrowser()` creates the browser at most once: for any number
`n ≥ 1` of calls made before the launch settles, `chromium.launch` runs
exactly once (on the first call, which also assigns `browserPromise` in
the same synchronous step) and every caller receives the same promise —
not `n` separate browsers. -/
theorem c7_single_launch (n : Nat) (hn : 1 ≤ n) :
    (getBrowserCalls n poolInit).1.launchCount = 1 ∧
    (getBrowserCalls n poolInit).1.browserPromise = some 0 ∧
    (getBrowserCalls n poolInit).2 = List.replicate n 0 := by
  cases n with
  | zero => exact absurd hn (by decide)
  | succ m =>
      simp [getBrowserCalls, getBrowser, poolInit, getBrowserCalls_cached,
        List.replicate]

theorem c7_single_launch_witness :
    (getBrowserCalls 3 poolInit).1.launchCount = 1 ∧
    (getBrowserCalls 3 poolInit).1.browserPromise = some 0 ∧
    (getBrowserCalls 3 poolInit).2 = List.replicate 3 0 :=
  c7_single_launch 3 (by decide)

/-- C6 counterexample: in server.js, after the single in-flight creation
attempt fails, `browserPromise` is not reset to `null`; the next
`getBrowser()` returns the same attempt's (rejected) promise and performs
no fresh launch — the cached permanent failure the claim rules out. -/
theorem c6_no_reset_counterexample :
    (onLaunchFailure (getBrowser poolInit).1).browserPromise ≠ none ∧
    (getBrowser (onLaunchFailure (getBrowser poolInit).1)).2 = 0 ∧
    (getBrowser (onLaunchFailure (getBrowser poolInit).1)).1.launchCount = 1 := by
  decide

/-- C6 amended: in the server.js `getBrowser`, a failed launch attempt
stays cached — `browserPromise` keeps the rejected promise and the next
call receives it without a new launch; the reset-to-uninitialized
behaviour holds in the part_003 variant, whose `.catch` sets
`browserPromise` back to `null` (rethrowing to the attempt's waiters), so
there the next `getBrowser()` starts a fresh launch attempt distinct from
the failed one. -/
theorem c6_reset_on_failure (s : PoolState) (p : Nat)
    (h : s.browserPromise = some p) (hp : p < s.launchCount) :
    (onLaunchFailure s).browserPromise = some p ∧
    (getBrowser (onLaunchFailure s)).2 = p ∧
    (getBrowser (onLaunchFailure s)).1.launchCount = s.launchCount ∧
    (onLaunchFailureReset s).browserPromise = none ∧
    (getBrowser (onLaunchFailureReset s)).2 = s.launchCount ∧
    (getBrowser (onLaunchFailureReset s)).1.launchCount = s.launchCount + 1 ∧
    (getBrowser (onLaunchFailureReset s)).2 ≠ p := by
  refine ⟨?_, ?_, ?_, rfl, ?_, ?_, ?_⟩
  · exact h
  · simp [onLaunchFailure, getBrowser, h]
  · simp [onLaunchFailure, getBrowser, h]
  · simp [onLaunchFailureReset, getBrowser]
  · simp [onLaunchFailureReset, getBrowser]
  · simp [onLaunchFailureReset, getBrowser]
    omega

theorem c6_reset_on_failure_witness :
    (onLaunchFailure { browserPromise := some 0, launchCount := 1 }).browserPromise =
      some 0 ∧
    (getBrowser (onLaunchFailure { browserPromise := some 0, launchCount := 1 })).2 = 0 ∧
    (getBrowser (onLaunchFailure
       { browserPromise := some 0, launchCount := 1 })).1.launchCount = 1 ∧
    (onLaunchFailureReset
       { browserPromise := some 0, launchCount := 1 }).browserPromise = none ∧
    (getBrowser (onLaunchFailureReset
       { browserPromise := some 0, launchCount := 1 })).2 = 1 ∧
    (getBrowser (onLaunchFailureReset
       { browserPromise := some 0, launchCount := 1 })).1.launchCount = 1 + 1 ∧
    (getBrowser (onLaunchFailureReset
       { browserPromise := some 0, launchCount := 1 })).2 ≠ 0 :=
  c6_reset_on_failure { browserPromise := some 0, launchCount := 1 } 0 rfl
    (by decide)

end RamaJudicial
